import Mathlib

/-!
Verification of the Java/Trilead SSH client backend (`SSHLibrary/javaclient.py`).

The definitions below are a shallow embedding of the client code.  Backend
primitives of the Trilead SSH library (authentication results, SFTP reads and
writes, stream state) are not part of the repository; they enter the embedding
as explicit parameters or oracle functions, so every theorem quantifies over
the backend behaviour the code can actually observe.
-/

set_option maxRecDepth 4000
set_option linter.unusedVariables false

namespace SSHLibrary

/-- The single authentication-error kind of the client contract
(`SSHClientException`, imported from `abstractclient` and raised by
`JavaSSHClient._login` and `JavaSSHClient._login_with_public_key`). -/
inductive SSHClientException where
  | mk
deriving DecidableEq

/-- The Java exception kinds the SFTP code in `javaclient.py` distinguishes:
`SFTPException` (the only kind caught in `_create_remote_file`) and
`IOException` (any other backend I/O fault). -/
inductive JavaError where
  | sftpException
  | ioException
deriving DecidableEq

/-- Embeds `JavaSSHClient._login`: the backend call
`self.client.authenticateWithPassword(username, password)` returns a boolean;
the method raises `SSHClientException` when it is false and returns `None`
(here `()`) when it is true. -/
def login (authOk : Bool) : Except SSHClientException Unit :=
  if authOk then Except.ok () else Except.error SSHClientException.mk

/-- Observable outcome of the backend call
`self.client.authenticateWithPublicKey(username, File(keyfile), password)`:
it returns `True`, returns `False`, or raises an `IOError` (which Jython also
raises when the key file is missing, unreadable or malformed). -/
inductive KeyAuthOutcome where
  | success
  | rejected
  | ioError
deriving DecidableEq

/-- Embeds `JavaSSHClient._login_with_public_key`: the backend call runs in a
`try` block; a `False` result raises `SSHClientException`, and a caught
`IOError` is re-raised as the same `SSHClientException`. -/
def login_with_public_key (outcome : KeyAuthOutcome) : Except SSHClientException Unit :=
  match outcome with
  | KeyAuthOutcome.success => Except.ok ()
  | KeyAuthOutcome.rejected => Except.error SSHClientException.mk
  | KeyAuthOutcome.ioError => Except.error SSHClientException.mk

/-- One character of `JavaSSHClient._read`: Python `chr(b & 0xFF)` applied to a
(signed) Java byte, embedded with `Int.land` for the bitwise `&`. -/
def javaChr (b : Int) : Char :=
  Char.ofNat (Int.land b 255).toNat

/-- The shell stdout stream as `JavaSSHClient._read` observes it: the list of
bytes currently buffered; `available()` reports its length, and a `read` into
an array of that size drains exactly these bytes. -/
structure ShellStream where
  buffered : List Int
deriving DecidableEq

/-- Embeds `JavaSSHClient._read`.  The method checks
`if self._stdout.available():`, and only then allocates a byte array of size
`available()`, reads into it, and decodes with `chr(b & 0xFF)` per byte.  The
`encoding` parameter is the client's configured encoding (`config.encoding`),
which the source never consults here.  The boolean records whether the
underlying blocking `read` call was performed at all. -/
def shell_read (encoding : String) (stdout : ShellStream) : String × Bool :=
  if stdout.buffered.length ≠ 0 then
    ((stdout.buffered.map javaChr).asString, true)
  else
    ("", false)

/-- Embeds `RemoteCommand._read_from_stream`: `BufferedReader.readLine` yields
the stream's lines (terminators stripped) until end of stream, and the method
reassembles them, appending `'\n'` to every line.  The stream is modelled by
the list of lines it yields before closure. -/
def read_from_stream (lines : List String) : String :=
  lines.foldl (fun result line => result ++ line ++ "\n") ""

/-- Python `x or deflt` for the optional integer returned by
`Session.getExitStatus()`: `None` and `0` are falsy, any other value is
returned unchanged. -/
def pyOrElse (status : Option Int) (deflt : Int) : Int :=
  match status with
  | none => deflt
  | some v => if v = 0 then deflt else v

/-- The calls `RemoteCommand.read_outputs` makes on its session, in program
order. -/
inductive SessionAction where
  | readStdoutStream
  | readStderrStream
  | getExitStatus
  | closeSession
deriving DecidableEq

/-- Embeds `RemoteCommand.read_outputs`: reads all of stdout, then all of
stderr, takes `getExitStatus() or 0`, closes the session, and returns the
triple.  The two streams are modelled by their line lists and the exit status
by an optional integer; the action list records the session calls in order. -/
def read_outputs (stdoutLines stderrLines : List String) (exitStatus : Option Int) :
    (String × String × Int) × List SessionAction :=
  ((read_from_stream stdoutLines, read_from_stream stderrLines, pyOrElse exitStatus 0),
   [SessionAction.readStdoutStream, SessionAction.readStderrStream,
    SessionAction.getExitStatus, SessionAction.closeSession])

/-- The remote directory structure as `_create_missing_remote_path` observes
it: the set (as a list) of paths whose `stat` succeeds. -/
def statOk (fs : List String) (path : String) : Bool :=
  fs.contains path

/-- `self._client.mkdir(curdir, 0744)` in the directory model: the created
path now stats successfully. -/
def mkdirFS (fs : List String) (path : String) : List String :=
  path :: fs

/-- Embeds the `for dirname in path.split('/')` loop of
`SFTPClient._create_missing_remote_path`: a nonempty segment extends `curdir`
with `'%s/%s' % (curdir, dirname)`; every iteration then stats `curdir` and,
when the stat raises `IOException` (here: the path is not in `fs`), creates
it.  Returns the updated directory set and the list of paths passed to
`mkdir`, in order. -/
def create_missing_loop (fs : List String) (curdir : String) :
    List String → List String × List String
  | [] => (fs, [])
  | dirname :: rest =>
    let curdir' := if dirname ≠ "" then curdir ++ "/" ++ dirname else curdir
    if statOk fs curdir' then
      create_missing_loop fs curdir' rest
    else
      let r := create_missing_loop (mkdirFS fs curdir') curdir' rest
      (r.1, curdir' :: r.2)

/-- Embeds `SFTPClient._create_missing_remote_path`: `curdir` starts at `'/'`
for an absolute path and at `self._client._absolute_path('.')` (the parameter
`cwd`) otherwise, then the segment loop runs.  Returns the updated directory
set and the list of `mkdir` calls. -/
def create_missing_remote_path (fs : List String) (cwd : String) (path : String) :
    List String × List String :=
  let curdir := if path.startsWith "/" then "/" else cwd
  create_missing_loop fs curdir (path.splitOn "/")

/-- The opaque handle returned by `self._client.createFile(dest)`. -/
structure RemoteHandle where
  id : Nat
deriving DecidableEq

/-- Observable outcome of the `fstat` / set `permissions` / `fsetstat` block in
`_create_remote_file`: it either applies the mode or raises some Java
exception. -/
inductive PermSetResult where
  | applied
  | raised (e : JavaError)
deriving DecidableEq

/-- Embeds `SFTPClient._create_remote_file`: `createFile` runs first and its
errors propagate; the permission block runs in a `try` whose only handler is
`except SFTPException: pass`, so an `SFTPException` is swallowed and the
handle is still returned, while any other exception propagates. -/
def create_remote_file (createResult : Except JavaError RemoteHandle)
    (permResult : PermSetResult) : Except JavaError RemoteHandle :=
  match createResult with
  | Except.error e => Except.error e
  | Except.ok remote_file =>
    match permResult with
    | PermSetResult.applied => Except.ok remote_file
    | PermSetResult.raised JavaError.sftpException => Except.ok remote_file
    | PermSetResult.raised JavaError.ioException => Except.error JavaError.ioException

/-- The fixed read-buffer size `arraysize = 4096` of `SFTPClient._get_file`. -/
def arraysize : Nat := 4096

/-- Result of one backend call `self._client.read(remotefile, size, data, 0,
arraysize)`: `-1` at end of file (`eof`), a block of bytes placed at the start
of the caller's buffer (`bytes`), or a raised `IOException`. -/
inductive ReadResult where
  | eof
  | bytes (l : List Int)
  | ioError
deriving DecidableEq

/-- Result of one local `localfile.write(data, 0, datalen)` call. -/
inductive WriteResult where
  | ok
  | ioError
deriving DecidableEq

/-- The I/O environment one `_get_file` transfer runs against: the result of
the `k`-th remote read (also given the offset it is issued at) and of the
`k`-th local write. -/
structure TransferEnv where
  read : Nat → Int → ReadResult
  write : Nat → WriteResult

/-- How the `while True` loop of `_get_file` exits: `brk` for the
`moredata == -1` break, after which execution reaches `closeFile`, or `exn`
for an exception raised by a read or a write, which propagates immediately.
Both carry the bytes written to the local file so far and the log of local
writes as (offset, length) pairs. -/
inductive LoopExit where
  | brk (localfile : List Int) (writes : List (Int × Int))
  | exn (localfile : List Int) (writes : List (Int × Int))
deriving DecidableEq

/-- The local file contents a loop exit carries. -/
def LoopExit.localfile : LoopExit → List Int
  | LoopExit.brk lf _ => lf
  | LoopExit.exn lf _ => lf

/-- The write log a loop exit carries. -/
def LoopExit.writes : LoopExit → List (Int × Int)
  | LoopExit.brk _ ws => ws
  | LoopExit.exn _ ws => ws

/-- Embeds the `while True` loop of `SFTPClient._get_file`, bounded by fuel
(`none` means the fuel ran out with the loop still running).  Per iteration:
`moredata = read(remotefile, size, data, 0, arraysize)` overwrites the first
returned bytes of the buffer in place; `datalen = len(data)`; `-1` breaks;
`if remotefilesize - size < arraysize: datalen = remotefilesize - size` trims
the final chunk; `localfile.write(data, 0, datalen)`; `size += datalen`. -/
def get_file_loop (env : TransferEnv) (remotefilesize : Int) :
    Nat → Nat → Int → List Int → List Int → List (Int × Int) → Option LoopExit
  | 0, _, _, _, _, _ => none
  | fuel + 1, k, size, data, localfile, writes =>
    match env.read k size with
    | ReadResult.ioError => some (LoopExit.exn localfile writes)
    | ReadResult.eof => some (LoopExit.brk localfile writes)
    | ReadResult.bytes fresh =>
      let data' := fresh ++ data.drop fresh.length
      let datalen : Int :=
        if remotefilesize - size < (arraysize : Int) then remotefilesize - size
        else (data'.length : Int)
      match env.write k with
      | WriteResult.ioError => some (LoopExit.exn localfile writes)
      | WriteResult.ok =>
        get_file_loop env remotefilesize fuel (k + 1) (size + datalen) data'
          (localfile ++ data'.take datalen.toNat) (writes ++ [(size, datalen)])

/-- Observable outcome of one `_get_file` call, from the point the remote
handle is opened with `openFileRO`: whether an exception propagated out, the
local file contents, the write log, and how many times
`self._client.closeFile(remotefile)` ran on the handle. -/
structure GetFileResult where
  raisedException : Bool
  localfile : List Int
  writes : List (Int × Int)
  closes : Nat
deriving DecidableEq

/-- Embeds `SFTPClient._get_file` from `openFileRO` on: `size = 0`, the fresh
`jarray.zeros(arraysize, 'b')` buffer, then the read/write loop;
`self._client.closeFile(remotefile)` is the next statement after the loop, so
it runs exactly once when the loop breaks and never when an exception
propagates out of the loop (there is no `try/finally`). -/
def get_file (env : TransferEnv) (remotefilesize : Int) (fuel : Nat) : Option GetFileResult :=
  match get_file_loop env remotefilesize fuel 0 0 (List.replicate arraysize 0) [] [] with
  | none => none
  | some (LoopExit.brk localfile writes) => some (GetFileResult.mk false localfile writes 1)
  | some (LoopExit.exn localfile writes) => some (GetFileResult.mk true localfile writes 0)

/-- The honest backend for a remote file with the given `content`, whose
`stat` size is accurate: a read of `arraysize` bytes at `offset` returns the
next `min (arraysize, remaining)` bytes of the file, or `-1` at or past the
end; local writes succeed. -/
def honestEnv (content : List Int) : TransferEnv :=
  TransferEnv.mk
    (fun _ offset =>
      if (content.length : Int) ≤ offset then ReadResult.eof
      else ReadResult.bytes ((content.drop offset.toNat).take arraysize))
    (fun _ => WriteResult.ok)

/-- A backend whose very first remote read raises an `IOException`
mid-transfer. -/
def failingReadEnv : TransferEnv :=
  TransferEnv.mk (fun _ _ => ReadResult.ioError) (fun _ => WriteResult.ok)

/-- The write-accounting discipline of `_get_file`: a logged local write
`(offset, length)` starts at a nonnegative offset, stays within the
stat-reported size, has the full buffer length exactly when at least a full
buffer remains below that size, and is trimmed to `remotefilesize - size`
once fewer bytes remain. -/
def goodWrite (remotefilesize : Int) (w : Int × Int) : Prop :=
  0 ≤ w.1 ∧ w.1 + w.2 ≤ remotefilesize ∧
  (remotefilesize - w.1 < (arraysize : Int) → w.2 = remotefilesize - w.1) ∧
  ((arraysize : Int) ≤ remotefilesize - w.1 → w.2 = (arraysize : Int))

/-! ## Arithmetic of `b & 0xFF` on Python ints -/

/-- Bit `i` of 255 is set exactly for the low eight positions. -/
theorem testBit_255 (i : Nat) : Nat.testBit 255 i = decide (i < 8) := by
  rcases Nat.lt_or_ge i 8 with h | h
  · interval_cases i <;> decide
  · have h2 : (255 : Nat) < 2 ^ i := by
      calc (255 : Nat) < 2 ^ 8 := by norm_num
      _ ≤ 2 ^ i := Nat.pow_le_pow_right (by norm_num) h
    simp [Nat.testBit_eq_false_of_lt h2]
    omega

/-- Masking a natural number with 255 is reduction mod 256. -/
theorem and_255_eq_mod (m : Nat) : m &&& 255 = m % 256 := by
  apply Nat.eq_of_testBit_eq
  intro i
  have h256 : (256 : Nat) = 2 ^ 8 := rfl
  rw [Nat.testBit_land, h256, Nat.testBit_mod_two_pow, testBit_255]
  cases Nat.decLt i 8 with
  | isTrue h => simp [h]
  | isFalse h => simp [h]

/-- `Nat.ldiff 255 m` rewritten through kernel-computable operations. -/
theorem ldiff_255 (m : Nat) : Nat.ldiff 255 m = 255 ^^^ (m &&& 255) := by
  apply Nat.eq_of_testBit_eq
  intro i
  rw [Nat.testBit_ldiff, Nat.testBit_xor, Nat.testBit_land, testBit_255]
  cases Nat.decLt i 8 with
  | isTrue h => simp [h]
  | isFalse h => simp [h]

/-- On arbitrary-precision two's-complement integers (Python ints and hence
Jython byte values), `b & 0xFF` is reduction mod 256. -/
theorem land_255_eq_emod (b : Int) : Int.land b 255 = b % 256 := by
  cases b with
  | ofNat m =>
    have h1 : Nat.land m 255 = m % 256 := and_255_eq_mod m
    have h2 : Int.land (Int.ofNat m) (Int.ofNat 255) = Int.ofNat (Nat.land m 255) := rfl
    rw [show (255 : Int) = Int.ofNat 255 from rfl, h2, h1]
    rfl
  | negSucc m =>
    have h1 : Nat.ldiff 255 m = 255 ^^^ (m &&& 255) := ldiff_255 m
    have h2 : Int.land (Int.negSucc m) (Int.ofNat 255) = Int.ofNat (Nat.ldiff 255 m) := rfl
    have h3 : m &&& 255 = m % 256 := and_255_eq_mod m
    have h4 : (255 : Nat) ^^^ (m % 256) = 255 - m % 256 := by
      have hlt : m % 256 < 256 := Nat.mod_lt _ (by norm_num)
      revert hlt
      generalize m % 256 = x
      revert x
      decide
    rw [show (255 : Int) = Int.ofNat 255 from rfl, h2, h1, h3, h4, Int.negSucc_eq]
    have h6 : m % 256 < 256 := Nat.mod_lt _ (by norm_num)
    have h7 : (m : Int) % 256 = (m % 256 : Nat) := by push_cast; ring
    have h8 : (Int.ofNat (255 - m % 256)) = 255 - ((m % 256 : Nat) : Int) := by
      rw [Int.ofNat_eq_natCast]
      omega
    rw [h8]
    omega

/-- `Char.ofNat` is faithful below 256; Latin-1 code points are valid. -/
theorem toNat_ofNat_of_lt (n : Nat) (h : n < 256) : (Char.ofNat n).toNat = n := by
  have hv : n.isValidChar := Or.inl (by omega)
  simp [Char.ofNat, hv, Char.toNat, Char.ofNatAux, UInt32.toNat, BitVec.toNat_ofNatLt]

/-- `javaChr` in terms of the byte value mod 256. -/
theorem javaChr_eq_emod (b : Int) : javaChr b = Char.ofNat (b % 256).toNat := by
  unfold javaChr
  rw [land_255_eq_emod]

/-! ## String folding helpers -/

/-- Folding string concatenation from an arbitrary accumulator. -/
theorem string_foldl_append (l : List String) (a : String) :
    List.foldl (fun r s => r ++ s) a l = a ++ List.foldl (fun r s => r ++ s) "" l := by
  induction l generalizing a with
  | nil => simp
  | cons x xs ih =>
    simp only [List.foldl]
    rw [ih (a ++ x), ih ("" ++ x)]
    simp [String.append_assoc]

/-- `String.join` unfolds one element at a time. -/
theorem string_join_cons (x : String) (xs : List String) :
    String.join (x :: xs) = x ++ String.join xs := by
  show List.foldl (fun r s => r ++ s) ("" ++ x) xs = x ++ List.foldl (fun r s => r ++ s) "" xs
  rw [string_foldl_append]
  simp

/-- The line-accumulating fold of `_read_from_stream`, from any accumulator. -/
theorem read_from_stream_foldl (lines : List String) (acc : String) :
    lines.foldl (fun result line => result ++ line ++ "\n") acc
      = acc ++ String.join (lines.map (fun line => line ++ "\n")) := by
  induction lines generalizing acc with
  | nil => simp [String.join]
  | cons l ls ih =>
    simp only [List.foldl, List.map]
    rw [ih, string_join_cons]
    simp [String.append_assoc]

/-- `_read_from_stream` returns exactly the concatenation of the stream's
lines, each terminated by the line separator. -/
theorem read_from_stream_eq_join (lines : List String) :
    read_from_stream lines = String.join (lines.map (fun line => line ++ "\n")) := by
  unfold read_from_stream
  rw [read_from_stream_foldl]
  simp

/-- `getExitStatus() or 0` equals the reported status with default 0. -/
theorem pyOrElse_zero_eq_getD (status : Option Int) : pyOrElse status 0 = status.getD 0 := by
  cases status with
  | none => rfl
  | some v =>
    by_cases h : v = 0 <;> simp [pyOrElse, h]

/-! ## Claim theorems: authentication, shell reads, command outputs -/

/-- C8: `_login` raises the authentication error `SSHClientException` whenever
the backend's password authentication reports false, rather than returning the
false result, and returns normally exactly when the backend reports success. -/
theorem login_raises_on_rejected_password :
    login false = Except.error SSHClientException.mk ∧ login true = Except.ok () :=
  ⟨rfl, rfl⟩

/-- C4: `_login_with_public_key` raises the single authentication-error kind
`SSHClientException` both when the backend rejects the key and when an I/O
error occurs touching the key file; the two failures are indistinguishable by
error type, and only backend success returns normally. -/
theorem login_with_public_key_single_error_kind :
    login_with_public_key KeyAuthOutcome.rejected = Except.error SSHClientException.mk ∧
    login_with_public_key KeyAuthOutcome.ioError = Except.error SSHClientException.mk ∧
    login_with_public_key KeyAuthOutcome.ioError
      = login_with_public_key KeyAuthOutcome.rejected ∧
    login_with_public_key KeyAuthOutcome.success = Except.ok () :=
  ⟨rfl, rfl, rfl, rfl⟩

/-- C6: `_create_remote_file` still returns the created handle when applying
the permissions raises an `SFTPException` (the swallowed error); a successful
permission set also returns the handle, any other exception in the permission
block propagates, and a `createFile` failure propagates. -/
theorem create_remote_file_swallows_only_sftp_error (h : RemoteHandle) (e : JavaError)
    (permFail : PermSetResult) :
    create_remote_file (Except.ok h) (PermSetResult.raised JavaError.sftpException)
      = Except.ok h ∧
    create_remote_file (Except.ok h) PermSetResult.applied = Except.ok h ∧
    create_remote_file (Except.ok h) (PermSetResult.raised JavaError.ioException)
      = Except.error JavaError.ioException ∧
    create_remote_file (Except.error e) permFail = Except.error e :=
  ⟨rfl, rfl, rfl, rfl⟩

/-- C7: `_read` never blocks: with zero bytes reported available it returns
the empty string without performing any read call, and otherwise it performs
one read and returns all currently buffered bytes decoded as text. -/
theorem shell_read_never_blocks (encoding : String) (stdout : ShellStream) :
    (stdout.buffered.length = 0 → shell_read encoding stdout = ("", false)) ∧
    (stdout.buffered.length ≠ 0 →
      shell_read encoding stdout = ((stdout.buffered.map javaChr).asString, true)) := by
  constructor
  · intro h
    simp [shell_read, h]
  · intro h
    simp [shell_read, h]

/-- Witness for C7: an empty buffer yields no read call, a two-byte buffer is
drained in full. -/
theorem shell_read_never_blocks_witness :
    shell_read "UTF-8" (ShellStream.mk []) = ("", false) ∧
    shell_read "UTF-8" (ShellStream.mk [104, 105]) = ("hi", true) := by
  constructor
  · exact (shell_read_never_blocks "UTF-8" (ShellStream.mk [])).1 rfl
  · have h := (shell_read_never_blocks "UTF-8" (ShellStream.mk [104, 105])).2 (by decide)
    rw [h]
    rfl

/-- C10: `_read` decodes each byte `b` as the single character
`chr(b & 0xFF)` (Latin-1: code point `b mod 256`), independently of the
configured encoding; the result has exactly one character per buffered byte,
and every produced code point is below 256, so decoding cannot fail. -/
theorem shell_read_latin1_decoding (encoding encodingB : String) (stdout : ShellStream) :
    (shell_read encoding stdout).1.data = stdout.buffered.map javaChr ∧
    (shell_read encoding stdout).1 = (shell_read encodingB stdout).1 ∧
    (shell_read encoding stdout).1.length = stdout.buffered.length ∧
    ∀ b ∈ stdout.buffered,
      javaChr b = Char.ofNat (b % 256).toNat ∧
      (javaChr b).toNat = (b % 256).toNat ∧
      (javaChr b).toNat < 256 := by
  have hmod : ∀ b : Int, (b % 256).toNat < 256 := by
    intro b
    omega
  refine ⟨?_, rfl, ?_, ?_⟩
  · by_cases h : stdout.buffered.length = 0
    · rw [List.length_eq_zero] at h
      simp [shell_read, h]
    · simp [shell_read, h]
      rfl
  · by_cases h : stdout.buffered.length = 0
    · rw [List.length_eq_zero] at h
      simp [shell_read, h]
    · simp [shell_read, h]
  · intro b hb
    refine ⟨javaChr_eq_emod b, ?_, ?_⟩
    · rw [javaChr_eq_emod]
      exact toNat_ofNat_of_lt _ (hmod b)
    · rw [javaChr_eq_emod, toNat_ofNat_of_lt _ (hmod b)]
      exact hmod b

/-- Witness for C10 on the buffer holding the single signed byte `-1`: the
decoded text is the one-character Latin-1 string for code point 255. -/
theorem shell_read_latin1_decoding_witness :
    (shell_read "UTF-8" (ShellStream.mk [-1])).1.data = [(-1 : Int)].map javaChr ∧
    javaChr (-1) = Char.ofNat 255 := by
  constructor
  · exact (shell_read_latin1_decoding "UTF-8" "ISO-8859-1" (ShellStream.mk [-1])).1
  · have h := ((shell_read_latin1_decoding "UTF-8" "ISO-8859-1" (ShellStream.mk [-1])).2.2.2
      (-1) (by simp)).1
    rw [show (((-1 : Int)) % 256).toNat = 255 from rfl] at h
    exact h

/-- C3: `read_outputs` returns stdout and stderr equal to the exact
concatenation of the lines emitted on each stream before closure, each
terminated by the line separator, and an exit code equal to the reported exit
status with 0 when the backend reports none; closing the session is the
terminal action, performed exactly once. -/
theorem read_outputs_spec (stdoutLines stderrLines : List String) (exitStatus : Option Int) :
    (read_outputs stdoutLines stderrLines exitStatus).1.1
      = String.join (stdoutLines.map (fun line => line ++ "\n")) ∧
    (read_outputs stdoutLines stderrLines exitStatus).1.2.1
      = String.join (stderrLines.map (fun line => line ++ "\n")) ∧
    (read_outputs stdoutLines stderrLines exitStatus).1.2.2 = exitStatus.getD 0 ∧
    (read_outputs stdoutLines stderrLines exitStatus).2.getLast?
      = some SessionAction.closeSession ∧
    (read_outputs stdoutLines stderrLines exitStatus).2.count SessionAction.closeSession = 1 :=
  ⟨read_from_stream_eq_join stdoutLines, read_from_stream_eq_join stderrLines,
   pyOrElse_zero_eq_getD exitStatus, rfl, rfl⟩

/-- Witness for C3 at the spec scenario `echo hi`: stdout is the single line
plus separator and the exit code is the reported 0. -/
theorem read_outputs_spec_witness :
    (read_outputs ["hi"] [] (some 0)).1.1
      = String.join (["hi"].map (fun line => line ++ "\n")) ∧
    (read_outputs ["hi"] [] (some 0)).1.2.2 = (some (0 : Int)).getD 0 :=
  ⟨(read_outputs_spec ["hi"] [] (some 0)).1, (read_outputs_spec ["hi"] [] (some 0)).2.2.1⟩

/-- Witness for C6 at a concrete handle: the swallowed permission error still
yields the handle. -/
theorem create_remote_file_swallows_only_sftp_error_witness :
    create_remote_file (Except.ok (RemoteHandle.mk 0))
        (PermSetResult.raised JavaError.sftpException)
      = Except.ok (RemoteHandle.mk 0) :=
  (create_remote_file_swallows_only_sftp_error (RemoteHandle.mk 0) JavaError.ioException
    PermSetResult.applied).1

/-! ## Claim theorems: recursive remote directory creation -/

/-- A successful stat is exactly membership in the directory model. -/
theorem statOk_iff (fs : List String) (p : String) : statOk fs p = true ↔ p ∈ fs := by
  simp [statOk]

/-- The segment loop never removes a directory. -/
theorem create_missing_loop_mono (segs : List String) :
    ∀ (fs : List String) (cur p : String), p ∈ fs → p ∈ (create_missing_loop fs cur segs).1 := by
  induction segs with
  | nil =>
    intro fs cur p hp
    simpa [create_missing_loop] using hp
  | cons d rest ih =>
    intro fs cur p hp
    simp only [create_missing_loop]
    by_cases hs : statOk fs (if d ≠ "" then cur ++ "/" ++ d else cur) = true
    · rw [if_pos hs]
      exact ih fs _ p hp
    · rw [if_neg hs]
      exact ih (mkdirFS fs _) _ p (List.mem_cons_of_mem _ hp)

/-- Every path the segment loop passes to `mkdir` was absent from the initial
directory set. -/
theorem create_missing_loop_new (segs : List String) :
    ∀ (fs : List String) (cur p : String),
      p ∈ (create_missing_loop fs cur segs).2 → statOk fs p = false := by
  induction segs with
  | nil =>
    intro fs cur p hp
    simp [create_missing_loop] at hp
  | cons d rest ih =>
    intro fs cur p hp
    simp only [create_missing_loop] at hp
    by_cases hs : statOk fs (if d ≠ "" then cur ++ "/" ++ d else cur) = true
    · rw [if_pos hs] at hp
      exact ih fs _ p hp
    · rw [if_neg hs] at hp
      rcases List.mem_cons.mp hp with hcase | hcase
      · subst hcase
        simpa using hs
      · have hrec := ih (mkdirFS fs _) _ p hcase
        cases hbool : statOk fs p with
        | false => rfl
        | true =>
          exfalso
          have hpin : p ∈ fs := (statOk_iff fs p).mp hbool
          have hin2 : statOk (mkdirFS fs (if d ≠ "" then cur ++ "/" ++ d else cur)) p = true :=
            (statOk_iff _ p).mpr (List.mem_cons_of_mem _ hpin)
          rw [hrec] at hin2
          exact Bool.noConfusion hin2

/-- After one run of the segment loop, a second run from the resulting
directory set stats every accumulated path successfully, creates nothing, and
leaves the set unchanged. -/
theorem create_missing_loop_idem (segs : List String) :
    ∀ (fs : List String) (cur : String),
      create_missing_loop (create_missing_loop fs cur segs).1 cur segs
        = ((create_missing_loop fs cur segs).1, []) := by
  induction segs with
  | nil =>
    intro fs cur
    rfl
  | cons d rest ih =>
    intro fs cur
    by_cases hs : statOk fs (if d ≠ "" then cur ++ "/" ++ d else cur) = true
    · have hstep : create_missing_loop fs cur (d :: rest)
          = create_missing_loop fs (if d ≠ "" then cur ++ "/" ++ d else cur) rest := by
        simp only [create_missing_loop]
        rw [if_pos hs]
      have hmem : (if d ≠ "" then cur ++ "/" ++ d else cur)
          ∈ (create_missing_loop fs (if d ≠ "" then cur ++ "/" ++ d else cur) rest).1 :=
        create_missing_loop_mono rest fs _ _ ((statOk_iff _ _).mp hs)
      rw [hstep]
      simp only [create_missing_loop]
      rw [if_pos ((statOk_iff _ _).mpr hmem)]
      exact ih fs _
    · have hstep : create_missing_loop fs cur (d :: rest)
          = ((create_missing_loop
                (mkdirFS fs (if d ≠ "" then cur ++ "/" ++ d else cur))
                (if d ≠ "" then cur ++ "/" ++ d else cur) rest).1,
             (if d ≠ "" then cur ++ "/" ++ d else cur) ::
              (create_missing_loop
                (mkdirFS fs (if d ≠ "" then cur ++ "/" ++ d else cur))
                (if d ≠ "" then cur ++ "/" ++ d else cur) rest).2) := by
        simp only [create_missing_loop]
        rw [if_neg hs]
      have hmem : (if d ≠ "" then cur ++ "/" ++ d else cur)
          ∈ (create_missing_loop
              (mkdirFS fs (if d ≠ "" then cur ++ "/" ++ d else cur))
              (if d ≠ "" then cur ++ "/" ++ d else cur) rest).1 :=
        create_missing_loop_mono rest _ _ _ (List.mem_cons_self _ _)
      rw [hstep]
      simp only [create_missing_loop]
      rw [if_pos ((statOk_iff _ _).mpr hmem)]
      exact ih (mkdirFS fs _) _

/-- C5: `_create_missing_remote_path` is idempotent: after one call, a second
call with the same path performs no `mkdir`, raises no error, and leaves the
remote directory structure unchanged; moreover every segment the first call
creates is one whose stat initially failed (pre-existing segments are silently
accepted). -/
theorem create_missing_remote_path_idempotent (fs : List String) (cwd path : String) :
    create_missing_remote_path (create_missing_remote_path fs cwd path).1 cwd path
      = ((create_missing_remote_path fs cwd path).1, []) ∧
    (create_missing_remote_path fs cwd path).2.all (fun p => !statOk fs p) = true := by
  constructor
  · exact create_missing_loop_idem (path.splitOn "/") fs _
  · rw [List.all_eq_true]
    intro p hp
    have h := create_missing_loop_new (path.splitOn "/") fs _ p hp
    simp [h]

/-- Witness for C5 at a concrete relative path: the second run changes
nothing and performs no mkdir. -/
theorem create_missing_remote_path_idempotent_witness :
    create_missing_remote_path (create_missing_remote_path [] "/home" "a/b").1 "/home" "a/b"
      = ((create_missing_remote_path [] "/home" "a/b").1, []) :=
  (create_missing_remote_path_idempotent [] "/home" "a/b").1

/-! ## Claim theorems: chunked file download -/

/-- One loop iteration when the read returns bytes and the write succeeds. -/
theorem get_file_loop_step (env : TransferEnv) (remotefilesize : Int) (fuel k : Nat)
    (size : Int) (data localfile fresh : List Int) (writes : List (Int × Int))
    (hr : env.read k size = ReadResult.bytes fresh) (hw : env.write k = WriteResult.ok) :
    get_file_loop env remotefilesize (fuel + 1) k size data localfile writes
      = get_file_loop env remotefilesize fuel (k + 1)
          (size + (if remotefilesize - size < (arraysize : Int) then remotefilesize - size
            else ((fresh ++ data.drop fresh.length).length : Int)))
          (fresh ++ data.drop fresh.length)
          (localfile ++ (fresh ++ data.drop fresh.length).take
            (if remotefilesize - size < (arraysize : Int) then remotefilesize - size
              else ((fresh ++ data.drop fresh.length).length : Int)).toNat)
          (writes ++ [(size,
            if remotefilesize - size < (arraysize : Int) then remotefilesize - size
              else ((fresh ++ data.drop fresh.length).length : Int))]) := by
  simp only [get_file_loop, hr, hw]

/-- One loop iteration when the read reports end of file: the loop breaks. -/
theorem get_file_loop_eof (env : TransferEnv) (remotefilesize : Int) (fuel k : Nat)
    (size : Int) (data localfile : List Int) (writes : List (Int × Int))
    (hr : env.read k size = ReadResult.eof) :
    get_file_loop env remotefilesize (fuel + 1) k size data localfile writes
      = some (LoopExit.brk localfile writes) := by
  simp only [get_file_loop, hr]

/-- One loop iteration when the read raises: the exception propagates. -/
theorem get_file_loop_read_raises (env : TransferEnv) (remotefilesize : Int) (fuel k : Nat)
    (size : Int) (data localfile : List Int) (writes : List (Int × Int))
    (hr : env.read k size = ReadResult.ioError) :
    get_file_loop env remotefilesize (fuel + 1) k size data localfile writes
      = some (LoopExit.exn localfile writes) := by
  simp only [get_file_loop, hr]

/-- One loop iteration when the local write raises: the exception propagates. -/
theorem get_file_loop_write_raises (env : TransferEnv) (remotefilesize : Int) (fuel k : Nat)
    (size : Int) (data localfile fresh : List Int) (writes : List (Int × Int))
    (hr : env.read k size = ReadResult.bytes fresh) (hw : env.write k = WriteResult.ioError) :
    get_file_loop env remotefilesize (fuel + 1) k size data localfile writes
      = some (LoopExit.exn localfile writes) := by
  simp only [get_file_loop, hr, hw]

/-- Against the honest backend, the loop at offset `m` with the correct local
prefix finishes with the local file equal to the whole remote content. -/
theorem get_file_loop_honest (content : List Int) :
    ∀ (fuel m k : Nat) (data localfile : List Int) (writes : List (Int × Int)),
      m ≤ content.length → data.length = arraysize →
      localfile = content.take m → content.length - m < fuel →
      ∃ ws, get_file_loop (honestEnv content) (content.length : Int) fuel k (m : Int)
          data localfile writes = some (LoopExit.brk content ws) := by
  intro fuel
  induction fuel with
  | zero =>
    intro m k data localfile writes hm hdata hl hf
    omega
  | succ fuel ih =>
    intro m k data localfile writes hm hdata hl hf
    subst hl
    by_cases heof : content.length ≤ m
    · have hm' : m = content.length := Nat.le_antisymm hm heof
      have hr : (honestEnv content).read k (m : Int) = ReadResult.eof := by
        unfold honestEnv
        dsimp
        rw [if_pos (by exact_mod_cast heof)]
      refine ⟨writes, ?_⟩
      rw [get_file_loop_eof (honestEnv content) _ fuel k _ data _ writes hr, hm',
        List.take_length]
    · push_neg at heof
      have hr : (honestEnv content).read k (m : Int)
          = ReadResult.bytes ((content.drop m).take arraysize) := by
        unfold honestEnv
        dsimp
        rw [if_neg (by omega)]
      have hwv : (honestEnv content).write k = WriteResult.ok := rfl
      rw [get_file_loop_step (honestEnv content) _ fuel k _ data _ _ writes hr hwv]
      have hfreshlen : ((content.drop m).take arraysize).length
          = min arraysize (content.length - m) := by
        simp [List.length_take]
      have hdlen : (((content.drop m).take arraysize
          ++ data.drop ((content.drop m).take arraysize).length).length : Int)
          = (arraysize : Int) := by
        have hle : ((content.drop m).take arraysize).length ≤ arraysize := by
          rw [hfreshlen]; omega
        simp only [List.length_append, List.length_drop, hdata]
        push_cast
        omega
      have hdatalen : (if (content.length : Int) - (m : Int) < (arraysize : Int)
            then (content.length : Int) - (m : Int)
            else (((content.drop m).take arraysize
              ++ data.drop ((content.drop m).take arraysize).length).length : Int))
          = ((min arraysize (content.length - m) : Nat) : Int) := by
        by_cases hc : (content.length : Int) - (m : Int) < (arraysize : Int)
        · rw [if_pos hc]
          push_cast
          omega
        · rw [if_neg hc, hdlen]
          push_cast
          omega
      rw [hdatalen]
      have htake : ((content.drop m).take arraysize
            ++ data.drop ((content.drop m).take arraysize).length).take
            (((min arraysize (content.length - m) : Nat) : Int)).toNat
          = (content.drop m).take (min arraysize (content.length - m)) := by
        rw [show (((min arraysize (content.length - m) : Nat) : Int)).toNat
          = min arraysize (content.length - m) by omega]
        rw [show (content.drop m).take (min arraysize (content.length - m))
          = (content.drop m).take arraysize by
            rcases Nat.le_total arraysize (content.length - m) with hle | hle
            · rw [Nat.min_eq_left hle]
            · rw [Nat.min_eq_right hle]
              rw [List.take_of_length_le (by simp [List.length_drop]),
                List.take_of_length_le (by simp [List.length_drop]; omega)]]
        rw [← hfreshlen, List.take_left]
      rw [htake, ← List.take_add]
      have hsize : (m : Int) + ((min arraysize (content.length - m) : Nat) : Int)
          = ((m + min arraysize (content.length - m) : Nat) : Int) := by
        push_cast
        ring
      rw [hsize]
      have hd1 : 1 ≤ min arraysize (content.length - m) :=
        Nat.le_min.mpr ⟨by rw [show arraysize = 4096 from rfl]; omega, by omega⟩
      have hd2 : min arraysize (content.length - m) ≤ content.length - m :=
        Nat.min_le_right _ _
      exact ih (m + min arraysize (content.length - m)) (k + 1) _ _ _
        (by omega)
        (by
          have hle : ((content.drop m).take arraysize).length ≤ arraysize := by
            rw [hfreshlen]; omega
          simp only [List.length_append, List.length_drop, hdata]
          omega)
        rfl
        (by omega)

/-- C1: against an honest backend whose stat-reported size equals the remote
content's length (all sizes, including 0, 4095, 4096, 8200 and exact multiples
of the 4096-byte chunk), `_get_file` terminates normally, writes the remote
content to the local file byte for byte without overrunning the known size,
and closes the handle. -/
theorem get_file_roundtrip (content : List Int) (remotefilesize : Int) (fuel : Nat)
    (hstat : remotefilesize = (content.length : Int))
    (hfuel : content.length < fuel) :
    (get_file (honestEnv content) remotefilesize fuel).map GetFileResult.localfile
      = some content ∧
    (get_file (honestEnv content) remotefilesize fuel).map GetFileResult.raisedException
      = some false ∧
    (get_file (honestEnv content) remotefilesize fuel).map GetFileResult.closes = some 1 := by
  subst hstat
  obtain ⟨ws, hws⟩ := get_file_loop_honest content fuel 0 0 (List.replicate arraysize 0) [] []
    (Nat.zero_le _) (by simp) (by simp) (by omega)
  simp only [Nat.cast_zero] at hws
  unfold get_file
  rw [hws]
  exact ⟨rfl, rfl, rfl⟩

/-- Witness for C1 at the boundary size 8200 (two full chunks plus a short
final chunk). -/
theorem get_file_roundtrip_witness :
    (get_file (honestEnv (List.replicate 8200 7)) 8200 8201).map GetFileResult.localfile
      = some (List.replicate 8200 7) :=
  (get_file_roundtrip (List.replicate 8200 7) 8200 8201 (by rw [List.length_replicate]; norm_num)
    (by rw [List.length_replicate]; omega)).1

/-- C2 (amended): the remote handle is closed exactly once when the transfer
loop completes normally; when a remote read or local write raises
mid-transfer the exception propagates and the handle is not closed at all
(the source has no `try/finally` around the loop). -/
theorem get_file_close_semantics (env : TransferEnv) (remotefilesize : Int) (fuel : Nat)
    (r : GetFileResult) (hrun : get_file env remotefilesize fuel = some r) :
    r.closes = if r.raisedException then 0 else 1 := by
  unfold get_file at hrun
  cases hloop : get_file_loop env remotefilesize fuel 0 0 (List.replicate arraysize 0) [] [] with
  | none =>
    rw [hloop] at hrun
    exact Option.noConfusion hrun
  | some ex =>
    rw [hloop] at hrun
    cases ex with
    | brk lf ws =>
      injection hrun with hr2
      subst hr2
      rfl
    | exn lf ws =>
      injection hrun with hr2
      subst hr2
      rfl

/-- Witness for the amended C2 on a completed download of the empty file. -/
theorem get_file_close_semantics_witness :
    (GetFileResult.mk false [] [] 1).closes
      = if (GetFileResult.mk false [] [] 1).raisedException then 0 else 1 :=
  get_file_close_semantics (honestEnv []) 0 1 (GetFileResult.mk false [] [] 1) rfl

/-- C2 counterexample: when the first remote read raises mid-transfer,
`_get_file` propagates the exception and `closeFile` runs zero times — the
handle opened with `openFileRO` is left open, refuting the claim that the
handle is closed exactly once on every exit path including failing reads. -/
theorem get_file_close_cex :
    get_file failingReadEnv 10 5 = some (GetFileResult.mk true [] [] 0) ∧
    (GetFileResult.mk true [] [] 0).closes ≠ 1 :=
  ⟨rfl, by decide⟩

/-- Reads of the honest backend never exceed the 4096-byte buffer. -/
theorem honestEnv_read_le (content : List Int) (k : Nat) (off : Int) (l : List Int)
    (h : (honestEnv content).read k off = ReadResult.bytes l) : l.length ≤ arraysize := by
  unfold honestEnv at h
  dsimp at h
  by_cases hc : (content.length : Int) ≤ off
  · rw [if_pos hc] at h
    exact ReadResult.noConfusion h
  · rw [if_neg hc] at h
    injection h with h2
    rw [← h2]
    simp [List.length_take]

/-- Size-accounting invariant of the `_get_file` loop: whatever each backend
read returns (never more than the buffer), the bytes written never exceed the
stat-reported remote size, and every logged write follows the trimming
discipline. -/
theorem get_file_loop_bound (env : TransferEnv) (remotefilesize : Int)
    (hread : ∀ (k : Nat) (off : Int) (l : List Int),
      env.read k off = ReadResult.bytes l → l.length ≤ arraysize) :
    ∀ (fuel k : Nat) (size : Int) (data localfile : List Int)
      (writes : List (Int × Int)) (ex : LoopExit),
      0 ≤ size → size ≤ remotefilesize → data.length = arraysize →
      (localfile.length : Int) ≤ size →
      (∀ w ∈ writes, goodWrite remotefilesize w) →
      get_file_loop env remotefilesize fuel k size data localfile writes = some ex →
      (ex.localfile.length : Int) ≤ remotefilesize ∧
        ∀ w ∈ ex.writes, goodWrite remotefilesize w := by
  intro fuel
  induction fuel with
  | zero =>
    intro k size data localfile writes ex h0 hsz hdata hlf hws hloop
    exact Option.noConfusion hloop
  | succ fuel ih =>
    intro k size data localfile writes ex h0 hsz hdata hlf hws hloop
    cases hr : env.read k size with
    | ioError =>
      rw [get_file_loop_read_raises env _ fuel k size data localfile writes hr] at hloop
      injection hloop with hex
      subst hex
      exact ⟨le_trans hlf hsz, hws⟩
    | eof =>
      rw [get_file_loop_eof env _ fuel k size data localfile writes hr] at hloop
      injection hloop with hex
      subst hex
      exact ⟨le_trans hlf hsz, hws⟩
    | bytes fresh =>
      have hfl : fresh.length ≤ arraysize := hread k size fresh hr
      cases hwv : env.write k with
      | ioError =>
        rw [get_file_loop_write_raises env _ fuel k size data localfile fresh writes
          hr hwv] at hloop
        injection hloop with hex
        subst hex
        exact ⟨le_trans hlf hsz, hws⟩
      | ok =>
        rw [get_file_loop_step env _ fuel k size data localfile fresh writes hr hwv] at hloop
        have harr : (0 : Int) < (arraysize : Int) := by
          rw [show arraysize = 4096 from rfl]
          norm_num
        have hdlen : ((fresh ++ data.drop fresh.length).length : Int) = (arraysize : Int) := by
          simp only [List.length_append, List.length_drop, hdata]
          push_cast
          omega
        have hkey : 0 ≤ (if remotefilesize - size < (arraysize : Int)
              then remotefilesize - size
              else ((fresh ++ data.drop fresh.length).length : Int)) ∧
            size + (if remotefilesize - size < (arraysize : Int)
              then remotefilesize - size
              else ((fresh ++ data.drop fresh.length).length : Int)) ≤ remotefilesize ∧
            (if remotefilesize - size < (arraysize : Int)
              then remotefilesize - size
              else ((fresh ++ data.drop fresh.length).length : Int)) ≤ (arraysize : Int) ∧
            (remotefilesize - size < (arraysize : Int) →
              (if remotefilesize - size < (arraysize : Int)
                then remotefilesize - size
                else ((fresh ++ data.drop fresh.length).length : Int))
                = remotefilesize - size) ∧
            ((arraysize : Int) ≤ remotefilesize - size →
              (if remotefilesize - size < (arraysize : Int)
                then remotefilesize - size
                else ((fresh ++ data.drop fresh.length).length : Int))
                = (arraysize : Int)) := by
          by_cases hc : remotefilesize - size < (arraysize : Int)
          · simp only [if_pos hc]
            exact ⟨by omega, by omega, by omega, by simp, fun hcc => by omega⟩
          · simp only [if_neg hc]
            rw [hdlen]
            exact ⟨by omega, by omega, by simp, fun hcc => absurd hcc hc, by simp⟩
        obtain ⟨hk0, hk1, hk2, hk3, hk4⟩ := hkey
        refine ih (k + 1) _ _ _ _ ex (by omega) hk1 ?_ ?_ ?_ hloop
        · simp only [List.length_append, List.length_drop, hdata]
          omega
        · have hlen2 : (localfile ++ (fresh ++ data.drop fresh.length).take
              (if remotefilesize - size < (arraysize : Int)
                then remotefilesize - size
                else ((fresh ++ data.drop fresh.length).length : Int)).toNat).length
              = localfile.length + min
                (if remotefilesize - size < (arraysize : Int)
                  then remotefilesize - size
                  else ((fresh ++ data.drop fresh.length).length : Int)).toNat
                (fresh ++ data.drop fresh.length).length := by
            simp [List.length_append, List.length_take]
          rw [hlen2]
          have hmin : min (if remotefilesize - size < (arraysize : Int)
                then remotefilesize - size
                else ((fresh ++ data.drop fresh.length).length : Int)).toNat
              (fresh ++ data.drop fresh.length).length
              ≤ (if remotefilesize - size < (arraysize : Int)
                then remotefilesize - size
                else ((fresh ++ data.drop fresh.length).length : Int)).toNat :=
            Nat.min_le_left _ _
          push_cast
          omega
        · intro w hw
          rcases List.mem_append.mp hw with h1 | h1
          · exact hws w h1
          · have hw2 : w = (size,
                if remotefilesize - size < (arraysize : Int)
                  then remotefilesize - size
                  else ((fresh ++ data.drop fresh.length).length : Int)) := by
              simpa using h1
            subst hw2
            exact ⟨h0, hk1, fun hcc => hk3 hcc, fun hcc => hk4 hcc⟩

/-- C9: regardless of how many bytes each backend read actually returns (a
read can never exceed the fixed buffer), the running byte count of
`_get_file` never exceeds the stat-reported remote size: every logged write
is a full `arraysize` chunk only while at least `arraysize` bytes remain
below the stat size, is trimmed to the remaining `remotefilesize - size`
otherwise, and the local file never grows past the stat-reported size. -/
theorem get_file_never_overruns (env : TransferEnv) (remotefilesize : Int) (fuel : Nat)
    (r : GetFileResult)
    (hstat : 0 ≤ remotefilesize)
    (hread : ∀ (k : Nat) (off : Int) (l : List Int),
      env.read k off = ReadResult.bytes l → l.length ≤ arraysize)
    (hrun : get_file env remotefilesize fuel = some r) :
    (r.localfile.length : Int) ≤ remotefilesize ∧
      ∀ w ∈ r.writes, goodWrite remotefilesize w := by
  unfold get_file at hrun
  cases hloop : get_file_loop env remotefilesize fuel 0 0 (List.replicate arraysize 0) [] [] with
  | none =>
    rw [hloop] at hrun
    exact Option.noConfusion hrun
  | some ex =>
    rw [hloop] at hrun
    have hres := get_file_loop_bound env remotefilesize hread fuel 0 0
      (List.replicate arraysize 0) [] [] ex le_rfl hstat (by simp) (by simp)
      (fun w hw => absurd hw (List.not_mem_nil w)) hloop
    cases ex with
    | brk lf ws =>
      injection hrun with hr2
      subst hr2
      exact hres
    | exn lf ws =>
      injection hrun with hr2
      subst hr2
      exact hres

/-- Witness for C9 on a three-byte file with stat size 3: the single logged
write is trimmed to 3 bytes and the local file does not exceed the stat
size. -/
theorem get_file_never_overruns_witness :
    ((GetFileResult.mk false [1, 2, 3] [(0, 3)] 1).localfile.length : Int) ≤ 3 :=
  (get_file_never_overruns (honestEnv [1, 2, 3]) 3 3
    (GetFileResult.mk false [1, 2, 3] [(0, 3)] 1)
    (by norm_num) (honestEnv_read_le [1, 2, 3]) rfl).1

end SSHLibrary
